import Mathlib

/-!
Shallow embedding of `cosmic-applet-sys-status` (src/chart.rs) and proofs
about its sampling controller, rolling series store and chart renderer.

Modelling conventions:
* `DateTime<Utc>` timestamps are represented by their `timestamp_millis()`
  value as an unbounded `Int` (the source only ever compares and subtracts
  millisecond values); where i64/u64 overflow matters the casts are modelled
  explicitly (`castU64`).
* `Instant` values of the monotonic clock are `Nat` milliseconds;
  `Instant::elapsed` is truncated subtraction (the monotonic clock never
  runs backwards).
* `VecDeque` is a `List` whose head is the front (most recently pushed
  element) and whose last element is the back (oldest element).
* `f64` arithmetic is modelled exactly: an IEEE-754 double value is the
  rational it denotes, and each Rust operation rounds its exact rational
  result to the nearest double (ties to even).  All values arising here are
  in the normal finite range, so subnormals and overflow never occur except
  for the explicitly handled division by zero.
* The iced `canvas::Cache` is external library code; following the spec it
  is modelled as an optional stored frame: `clear` discards it and
  `draw_cache` returns the stored frame if present, otherwise runs the
  drawing closure and stores the result.
-/

namespace SysStatus

/-- PLOT_SECONDS constant: the retention window length in seconds. -/
def PLOT_SECONDS : Nat := 60

/-- SAMPLE_EVERY constant (`Duration::from_millis(1000)`), in milliseconds. -/
def SAMPLE_EVERY : Nat := 1000

/-- Retention window (`Duration::from_secs(PLOT_SECONDS)`) in milliseconds. -/
def limitMillis : Nat := PLOT_SECONDS * 1000

/-- Rust `as u64` cast of an i64 value: wrapping reinterpretation mod 2^64. -/
def castU64 (i : Int) : Nat := (i % (2 : Int) ^ 64).toNat

/-- Geometry of one rebuilt chart frame: the cartesian domain produced by
`build_cartesian_2d(oldest_time..newest_time, 0..100)` together with the
data points handed to `AreaSeries::new` in iteration order. -/
structure Geometry where
  xLo : Int
  xHi : Int
  yLo : Int
  yHi : Int
  points : List (Int × Int)
deriving DecidableEq, Repr

/-- Modelled from the spec: the iced `canvas::Cache` (external library code)
holds an optional previously drawn frame. -/
structure Cache where
  geometry : Option Geometry
deriving DecidableEq, Repr

/-- Cache.new constructs an empty (invalidated) cache. -/
def Cache.new : Cache := ⟨none⟩

/-- Cache.clear discards any stored frame, invalidating the cache. -/
def Cache.clear (_ : Cache) : Cache := ⟨none⟩

/-- PercentualUsageChart: one rolling series plus its render cache.
`data_points` is newest-push-first; each entry is
(`timestamp_millis`, value).  The cosmetic `color` field stands for the
`RGBColor`. -/
structure PercentualUsageChart where
  cache : Cache
  data_points : List (Int × Int)
  limit : Nat
  color : Nat
deriving DecidableEq, Repr

/-- PercentualUsageChart::new: collect the given samples, fresh cache,
limit = 60 s. -/
def PercentualUsageChart.new (data : List (Int × Int)) (color : Nat) :
    PercentualUsageChart :=
  { cache := Cache.new, data_points := data, limit := limitMillis, color := color }

/-- Eviction loop of `push_data`, acting on the oldest-first reversal of the
deque: while the back (head here) satisfies
`Duration::from_millis((cur_ms - time.timestamp_millis()) as u64) > self.limit`
it is popped; the loop stops at the first back entry that does not. -/
def evictLoop (cur_ms : Int) (limit : Nat) : List (Int × Int) → List (Int × Int)
  | [] => []
  | (t, v) :: rest =>
    if castU64 (cur_ms - t) > limit then evictLoop cur_ms limit rest
    else (t, v) :: rest

/-- PercentualUsageChart::push_data: push the sample at the front, run the
eviction loop on the back, clear the render cache. -/
def PercentualUsageChart.push_data (c : PercentualUsageChart) (time : Int)
    (value : Int) : PercentualUsageChart :=
  let cur_ms := time
  let pushed := (time, value) :: c.data_points
  { c with
    data_points := (evictLoop cur_ms c.limit pushed.reverse).reverse
    cache := c.cache.clear }

/-- Timestamp of the front entry, or the Unix epoch placeholder
(`DateTime::from_timestamp(0, 0)`) when the series is empty, as in
`build_chart`. -/
def PercentualUsageChart.newestTime (c : PercentualUsageChart) : Int :=
  (c.data_points.head?.getD ((0 : Int), (0 : Int))).1

/-- PercentualUsageChart::build_chart: time domain
`[newest - 60 s, newest]`, value domain `0..100`, area series over the data
points.  `build_cartesian_2d` fails (the `expect` panics) only on a
degenerate domain, which the fixed 60 s span rules out. -/
def PercentualUsageChart.build_chart (c : PercentualUsageChart) :
    Except String Geometry :=
  let newest_time := c.newestTime
  let oldest_time := newest_time - (PLOT_SECONDS : Int) * 1000
  if oldest_time < newest_time then
    .ok { xLo := oldest_time, xHi := newest_time, yLo := 0, yHi := 100,
          points := c.data_points }
  else
    .error "failed to build chart"

/-- Chart::draw, via `renderer.draw_cache(&self.cache, bounds, draw_fn)`:
return the cached frame when the cache holds one, otherwise rebuild through
`build_chart` and store the result in the cache. -/
def PercentualUsageChart.draw (c : PercentualUsageChart) :
    Except String (Geometry × PercentualUsageChart) :=
  match c.cache.geometry with
  | some g => .ok (g, c)
  | none =>
    match c.build_chart with
    | .ok g => .ok (g, { c with cache := ⟨some g⟩ })
    | .error e => .error e

/-! Exact model of the `f64` arithmetic in `SystemChart::update`'s memory
percentage computation `((used_memory / total_memory) * 100.0) as i32`. -/

/-- Frac is a nonnegative rational value as an (unreduced)
numerator/denominator pair; `den` is positive in every use below.  Doubles
are modelled by the exact rational value they denote; every value in the
modelled computation is nonnegative, so a sign field is not needed. -/
structure Frac where
  num : Nat
  den : Nat
deriving DecidableEq, Repr

/-- log2floorFAux fuel a b computes ⌊log₂ (a / b)⌋ for a, b > 0 by repeated
halving/doubling; the fuel bounds the exponent search and is never
exhausted for double-range exponents. -/
def log2floorFAux : Nat → Nat → Nat → Int
  | 0, _, _ => 0
  | fuel + 1, a, b =>
    if 2 * b ≤ a then log2floorFAux fuel a (2 * b) + 1
    else if a < b then log2floorFAux fuel (2 * a) b - 1
    else 0

/-- log2floorF a b is ⌊log₂ (a / b)⌋ for a, b > 0; fuel 4200 covers every
finite double exponent. -/
def log2floorF (a b : Nat) : Int := log2floorFAux 4200 a b

/-- roundHalfEvenF p q rounds the nonnegative fraction p / q (q > 0) to the
nearest natural number, ties to even. -/
def roundHalfEvenF (p q : Nat) : Nat :=
  let f := p / q
  let r := p % q
  if q < 2 * r then f + 1
  else if 2 * r < q then f
  else if f % 2 = 0 then f else f + 1

/-- roundDoubleF a b rounds the nonnegative rational a / b (b > 0) to the
nearest IEEE-754 double (53-bit significand, round half to even), returned
as its exact rational value.  With e = ⌊log₂ (a/b)⌋ the scaled significand
(a/b)·2^(52-e) lies in [2^52, 2^53); it is rounded to an integer m and the
value m·2^(e-52) is returned.  Every nonzero value arising in the modelled
computation lies in the normal finite double range, so subnormal rounding
and overflow to infinity never occur. -/
def roundDoubleF (a b : Nat) : Frac :=
  if a = 0 then ⟨0, 1⟩
  else
    let e := log2floorF a b
    let s := (52 - e).toNat
    let s' := (e - 52).toNat
    let m := roundHalfEvenF (a * 2 ^ s) (b * 2 ^ s')
    if 52 ≤ e then ⟨m * 2 ^ s', 1⟩ else ⟨m, 2 ^ s⟩

/-- u64AsF64 is Rust's `as f64` cast of a u64: round to nearest double. -/
def u64AsF64 (u : Nat) : Frac := roundDoubleF u 1

/-- memoryPercent used total is the body of
`((used_memory as f64 / total_memory as f64) * 100.0) as i32` with every
f64 operation correctly rounded: the two u64 readings are cast to f64, the
f64 division and the multiplication by 100.0 each round their exact
rational result to the nearest double, and the `as i32` cast truncates
toward zero (for these nonnegative values: floor, i.e. Nat division),
saturating at i32::MAX.  `total = 0` makes the f64 division produce NaN
(used = 0, cast to 0) or +inf (cast saturates to i32::MAX). -/
def memoryPercent (used total : Nat) : Int :=
  if total = 0 then (if used = 0 then 0 else 2147483647)
  else
    let u := u64AsF64 used
    let t := u64AsF64 total
    let q := roundDoubleF (u.num * t.den) (u.den * t.num)
    let p := roundDoubleF (q.num * 100) q.den
    min 2147483647 (Int.ofNat (p.num / p.den))

/-! The sampling controller `SystemChart`. -/

/-- SystemChart state: monotonic instant of the last sample, the two
optional series, the fixed chart height (180.0) and the theme color. -/
structure SystemChart where
  last_sample_time : Nat
  cpu : Option PercentualUsageChart
  memory : Option PercentualUsageChart
  chart_height : Nat
  color : Nat
deriving DecidableEq, Repr

/-- SystemChart::new: no series yet; `last_sample_time` is the construction
instant. -/
def SystemChart.new (now_inst : Nat) (color : Nat) : SystemChart :=
  { last_sample_time := now_inst, cpu := none, memory := none,
    chart_height := 180, color := color }

/-- SystemChart::is_initialized: the CPU series exists. -/
def SystemChart.is_initialized (st : SystemChart) : Bool :=
  st.cpu.isSome

/-- SystemChart::should_update at monotonic instant `now_inst`:
`!self.is_initialized() || self.last_sample_time.elapsed() > SAMPLE_EVERY`. -/
def SystemChart.should_update (st : SystemChart) (now_inst : Nat) : Bool :=
  !st.is_initialized || decide (SAMPLE_EVERY < now_inst - st.last_sample_time)

/-- SystemChart::update, returning also whether the guarded body ran (one
metric-source refresh plus one push per series).  Inputs are the ambient
clocks and the metric-source readings: `now_inst` the monotonic instant,
`now` the wall-clock `Utc::now().timestamp_millis()`, `cpu_usage_i32` the
reading `self.sys.global_cpu_info().cpu_usage() as i32`, and the memory
readings in bytes.  The `expect` calls of the push branch cannot fire there
because `is_initialized` guards `cpu`, and `memory` is `some` in every
reachable state (proved below); they are modelled by `Option.map`. -/
def SystemChart.updateR (st : SystemChart) (now_inst : Nat) (now : Int)
    (cpu_usage_i32 : Int) (used_memory total_memory : Nat) :
    SystemChart × Bool :=
  if st.should_update now_inst then
    let cpu_data := cpu_usage_i32
    let memory_data := memoryPercent used_memory total_memory
    let st1 := { st with last_sample_time := now_inst }
    if !st1.is_initialized then
      ({ st1 with
          cpu := some (PercentualUsageChart.new [(now, cpu_data)] st1.color)
          memory := some (PercentualUsageChart.new [(now, memory_data)] st1.color) },
       true)
    else
      ({ st1 with
          cpu := st1.cpu.map (fun c => c.push_data now cpu_data)
          memory := st1.memory.map (fun c => c.push_data now memory_data) },
       true)
  else
    (st, false)

/-- SystemChart::update is the state part of `updateR`. -/
def SystemChart.update (st : SystemChart) (now_inst : Nat) (now : Int)
    (cpu_usage_i32 : Int) (used_memory total_memory : Nat) : SystemChart :=
  (st.updateR now_inst now cpu_usage_i32 used_memory total_memory).1

/-- Reachable states of the controller: freshly constructed, or one update
step (with arbitrary clock readings and metric readings) from a reachable
state. -/
inductive Reachable : SystemChart → Prop
  | new (now_inst color : Nat) : Reachable (SystemChart.new now_inst color)
  | step {st : SystemChart} (h : Reachable st) (now_inst : Nat) (now : Int)
      (cpu_usage_i32 : Int) (used_memory total_memory : Nat) :
      Reachable (st.update now_inst now cpu_usage_i32 used_memory total_memory)

/-- pushAll folds a list of (timestamp, value) pushes into a series, in
order. -/
def pushAll (c : PercentualUsageChart) (ps : List (Int × Int)) :
    PercentualUsageChart :=
  ps.foldl (fun c p => c.push_data p.1 p.2) c

/-- windowOK dp: every retained sample is at most the window length older
than the newest (front) sample. -/
def windowOK (dp : List (Int × Int)) : Prop :=
  ∀ x ∈ dp, (dp.head?.getD ((0 : Int), (0 : Int))).1 - x.1 ≤ (limitMillis : Int)

instance (dp : List (Int × Int)) : Decidable (windowOK dp) :=
  inferInstanceAs (Decidable (∀ x ∈ dp,
    (dp.head?.getD ((0 : Int), (0 : Int))).1 - x.1 ≤ (limitMillis : Int)))

/-- tsInRange t: the timestamp fits in an i64, as every
`timestamp_millis()` value does. -/
def tsInRange (t : Int) : Prop := -(2 ^ 63) ≤ t ∧ t < 2 ^ 63

instance (t : Int) : Decidable (tsInRange t) :=
  inferInstanceAs (Decidable (-(2 ^ 63) ≤ t ∧ t < 2 ^ 63))

/-- ChartInv dp: the newest-first ordering, i64-range timestamps, and the
retention-window property. -/
def ChartInv (dp : List (Int × Int)) : Prop :=
  dp.Pairwise (fun a b => b.1 < a.1) ∧ (∀ x ∈ dp, tsInRange x.1) ∧ windowOK dp

/-! Basic lemmas about the cast and the eviction loop. -/

lemma castU64_zero : castU64 0 = 0 := by simp [castU64]

lemma castU64_of_nonneg {d : Int} (h0 : 0 ≤ d) (h1 : d < 2 ^ 64) :
    (castU64 d : Int) = d := by
  unfold castU64
  rw [Int.emod_eq_of_lt h0 (by omega), Int.toNat_of_nonneg h0]

lemma castU64_of_neg {d : Int} (h0 : d < 0) (h1 : -(2 ^ 64) ≤ d) :
    (castU64 d : Int) = d + 2 ^ 64 := by
  unfold castU64
  have h2 : d % 2 ^ 64 = d + 2 ^ 64 := by omega
  rw [h2, Int.toNat_of_nonneg (by omega)]

lemma evictLoop_sublist (cur : Int) (lim : Nat) (l : List (Int × Int)) :
    List.Sublist (evictLoop cur lim l) l := by
  induction l with
  | nil => simp [evictLoop]
  | cons a l ih =>
    obtain ⟨t, v⟩ := a
    simp only [evictLoop]
    split
    · exact ih.trans (List.sublist_cons_self _ _)
    · exact List.Sublist.refl _

lemma evictLoop_head {cur : Int} {lim : Nat} {l : List (Int × Int)}
    {x₀ : Int × Int} {rest : List (Int × Int)}
    (h : evictLoop cur lim l = x₀ :: rest) : castU64 (cur - x₀.1) ≤ lim := by
  induction l with
  | nil => simp [evictLoop] at h
  | cons a l ih =>
    obtain ⟨t, v⟩ := a
    simp only [evictLoop] at h
    split at h
    · exact ih h
    · rename_i hc
      injection h with h1 h2
      subst h1
      simpa using Nat.not_lt.mp hc

lemma evictLoop_append {cur : Int} {lim : Nat} {p : Int × Int}
    (hp : ¬ castU64 (cur - p.1) > lim) (l : List (Int × Int)) :
    ∃ l', evictLoop cur lim (l ++ [p]) = l' ++ [p]
      ∧ List.Sublist l' l := by
  induction l with
  | nil =>
    refine ⟨[], ?_, List.Sublist.refl _⟩
    obtain ⟨t, v⟩ := p
    simpa [evictLoop] using hp
  | cons a l ih =>
    obtain ⟨t, v⟩ := a
    by_cases hc : castU64 (cur - t) > lim
    · obtain ⟨l', hl', hs⟩ := ih
      exact ⟨l', by simpa [evictLoop, hc] using hl',
             hs.trans (List.sublist_cons_self _ _)⟩
    · exact ⟨(t, v) :: l, by simp [evictLoop, hc], List.Sublist.refl _⟩

lemma evictLoop_all {cur : Int} {lim : Nat} {p : Int × Int}
    (hp : ¬ castU64 (cur - p.1) > lim) (l : List (Int × Int))
    (hall : ∀ x ∈ l, castU64 (cur - x.1) > lim) :
    evictLoop cur lim (l ++ [p]) = [p] := by
  induction l with
  | nil =>
    obtain ⟨t, v⟩ := p
    simpa [evictLoop] using hp
  | cons a l ih =>
    obtain ⟨t, v⟩ := a
    have hc : castU64 (cur - t) > lim := hall (t, v) (by simp)
    simpa [evictLoop, hc] using ih (fun x hx => hall x (by simp [hx]))

/-! Shape of `push_data`. -/

lemma push_data_eq (c : PercentualUsageChart) (t v : Int) :
    (c.push_data t v).data_points
      = (evictLoop t c.limit (c.data_points.reverse ++ [(t, v)])).reverse := by
  simp [PercentualUsageChart.push_data]

lemma push_data_cache (c : PercentualUsageChart) (t v : Int) :
    (c.push_data t v).cache = Cache.clear c.cache := rfl

lemma push_data_limit (c : PercentualUsageChart) (t v : Int) :
    (c.push_data t v).limit = c.limit := rfl

lemma self_not_evicted (t : Int) (lim : Nat) :
    ¬ castU64 (t - t) > lim := by simp [castU64]

lemma push_data_shape (c : PercentualUsageChart) (t v : Int) :
    ∃ l', (c.push_data t v).data_points = (t, v) :: l'.reverse
      ∧ List.Sublist l' c.data_points.reverse := by
  obtain ⟨l', hl', hs⟩ := evictLoop_append (p := (t, v))
    (self_not_evicted t c.limit) c.data_points.reverse
  exact ⟨l', by simp [push_data_eq, hl'], hs⟩

lemma push_data_head (c : PercentualUsageChart) (t v : Int) :
    (c.push_data t v).data_points.head? = some (t, v) := by
  obtain ⟨l', hl', -⟩ := push_data_shape c t v
  simp [hl']

lemma push_data_mem (c : PercentualUsageChart) (t v : Int) :
    ∀ x ∈ (c.push_data t v).data_points, x = (t, v) ∨ x ∈ c.data_points := by
  obtain ⟨l', hl', hs⟩ := push_data_shape c t v
  intro x hx
  rw [hl'] at hx
  rcases List.mem_cons.mp hx with h | h
  · exact Or.inl h
  · exact Or.inr (by
      have := hs.mem (List.mem_reverse.mp h)
      exact List.mem_reverse.mp this)

/-! Preservation of the series invariant under monotonic pushes. -/

lemma push_step (c : PercentualUsageChart) (t v : Int)
    (hlim : c.limit = limitMillis)
    (hinv : ChartInv c.data_points)
    (ht : tsInRange t)
    (hgt : ∀ x ∈ c.data_points, x.1 < t) :
    ChartInv (c.push_data t v).data_points := by
  obtain ⟨hsorted, hrange, -⟩ := hinv
  -- the oldest-first input to the eviction loop is strictly increasing
  have hrevsorted : c.data_points.reverse.Pairwise (fun a b => a.1 < b.1) := by
    rw [List.pairwise_reverse]
    exact hsorted
  have hinsorted :
      (c.data_points.reverse ++ [(t, v)]).Pairwise (fun a b => a.1 < b.1) := by
    rw [List.pairwise_append]
    refine ⟨hrevsorted, List.pairwise_singleton _ _, ?_⟩
    intro a ha b hb
    rw [List.mem_singleton] at hb
    subst hb
    exact hgt a (List.mem_reverse.mp ha)
  set out := evictLoop t c.limit (c.data_points.reverse ++ [(t, v)]) with hout
  have houtsorted : out.Pairwise (fun a b => a.1 < b.1) :=
    hinsorted.sublist (evictLoop_sublist _ _ _)
  have houtmem : ∀ x ∈ out, x = (t, v) ∨ x ∈ c.data_points := by
    intro x hx
    have := (evictLoop_sublist t c.limit (c.data_points.reverse ++ [(t, v)])).mem hx
    rcases List.mem_append.mp this with h | h
    · exact Or.inr (List.mem_reverse.mp h)
    · exact Or.inl (List.mem_singleton.mp h)
  have hdp : (c.push_data t v).data_points = out.reverse := push_data_eq c t v
  obtain ⟨l', hl', hs⟩ := evictLoop_append (p := (t, v))
    (self_not_evicted t c.limit) c.data_points.reverse
  rw [← hout] at hl'
  have hdp2 : (c.push_data t v).data_points = (t, v) :: l'.reverse := by
    rw [hdp, hl']; simp
  have hlim60 : (limitMillis : Int) = 60000 := by
    norm_num [limitMillis, PLOT_SECONDS]
  refine ⟨?_, ?_, ?_⟩
  · rw [hdp, List.pairwise_reverse]
    exact houtsorted
  · intro x hx
    rw [hdp, List.mem_reverse] at hx
    rcases houtmem x hx with h | h
    · rw [h]; exact ht
    · exact hrange x h
  · -- the window property
    intro x hx
    rw [hdp2] at hx ⊢
    simp only [List.head?_cons, Option.getD_some]
    rcases List.mem_cons.mp hx with rfl | hxl
    · simp [hlim60]
    · have hxl' : x ∈ l' := List.mem_reverse.mp hxl
      cases hl'c : l' with
      | nil => rw [hl'c] at hxl'; simp at hxl'
      | cons y₀ l'' =>
        have houthead : out = y₀ :: (l'' ++ [(t, v)]) := by
          rw [hl', hl'c]; simp
        have hy₀cast : castU64 (t - y₀.1) ≤ c.limit :=
          evictLoop_head (hout.symm.trans houthead)
        have hy₀dp : y₀ ∈ c.data_points := by
          have : y₀ ∈ l' := by rw [hl'c]; simp
          exact List.mem_reverse.mp (hs.mem this)
        have hy₀lt : y₀.1 < t := hgt y₀ hy₀dp
        have hy₀range : tsInRange y₀.1 := hrange y₀ hy₀dp
        have hcast : (castU64 (t - y₀.1) : Int) = t - y₀.1 := by
          obtain ⟨h1, h2⟩ := hy₀range
          obtain ⟨h3, h4⟩ := ht
          exact castU64_of_nonneg (by omega) (by omega)
        have hwin : t - y₀.1 ≤ (limitMillis : Int) := by
          rw [← hcast, ← hlim]
          exact_mod_cast hy₀cast
        rw [hl'c] at hxl'
        rcases List.mem_cons.mp hxl' with rfl | hx''
        · exact hwin
        · have hp : List.Pairwise (fun (a b : Int × Int) => a.1 < b.1)
              (y₀ :: (l'' ++ [(t, v)])) := houthead ▸ houtsorted
          have : y₀.1 < x.1 :=
            (List.pairwise_cons.mp hp).1 x (by simp [hx''])
          omega

lemma pushAll_cons (c : PercentualUsageChart) (p : Int × Int)
    (ps : List (Int × Int)) :
    pushAll c (p :: ps) = pushAll (c.push_data p.1 p.2) ps := rfl

lemma pushAll_inv (ps : List (Int × Int)) :
    ∀ c : PercentualUsageChart, c.limit = limitMillis →
      ChartInv c.data_points →
      ps.Pairwise (fun a b => a.1 < b.1) →
      (∀ y ∈ ps, tsInRange y.1) →
      (∀ x ∈ c.data_points, ∀ y ∈ ps, x.1 < y.1) →
      ChartInv (pushAll c ps).data_points := by
  induction ps with
  | nil => intro c _ hinv _ _ _; exact hinv
  | cons p ps ih =>
    intro c hclim hinv hpair hrange hlt
    rw [pushAll_cons]
    have hstep : ChartInv (c.push_data p.1 p.2).data_points :=
      push_step c p.1 p.2 hclim hinv (hrange p (by simp))
        (fun x hx => hlt x hx p (by simp))
    refine ih _ (push_data_limit c p.1 p.2 ▸ hclim) hstep
      (List.pairwise_cons.mp hpair).2
      (fun y hy => hrange y (by simp [hy])) ?_
    intro x hx y hy
    rcases push_data_mem c p.1 p.2 x hx with rfl | hxc
    · exact (List.pairwise_cons.mp hpair).1 y hy
    · exact hlt x hxc y (by simp [hy])

/-- C2: for every sequence of pushes with strictly increasing (i64-range)
timestamps into a fresh series, after each push — i.e. after pushing any
such sequence, every stage being itself the push of a strictly increasing
sequence — every retained sample satisfies
newest.timestamp - sample.timestamp ≤ 60000 ms.  (The claim's concrete
scenario is checked in the witness.) -/
theorem window_invariant (col : Nat) (ps : List (Int × Int))
    (hps : ps.Pairwise (fun a b => a.1 < b.1))
    (hrange : ∀ y ∈ ps, tsInRange y.1) :
    windowOK ((pushAll (PercentualUsageChart.new [] col) ps).data_points) :=
  (pushAll_inv ps (PercentualUsageChart.new [] col) rfl
    ⟨List.Pairwise.nil, by simp [PercentualUsageChart.new],
      by simp [windowOK, PercentualUsageChart.new]⟩ hps hrange
    (by simp [PercentualUsageChart.new])).2.2

/-- Witness for C2, on the spec's scenario: pushes (0 s, 10), (30 s, 40),
(61 s, 90) with the 60 s window leave exactly [(61 s, 90), (30 s, 40)]
(newest first): the t = 0 sample is evicted. -/
theorem window_invariant_witness :
    ([((0 : Int), (10 : Int)), (30000, 40), (61000, 90)].Pairwise
        (fun a b => a.1 < b.1)
      ∧ ∀ y ∈ [((0 : Int), (10 : Int)), (30000, 40), (61000, 90)], tsInRange y.1)
    ∧ windowOK ((pushAll (PercentualUsageChart.new [] 0)
        [(0, 10), (30000, 40), (61000, 90)]).data_points)
    ∧ (pushAll (PercentualUsageChart.new [] 0)
        [(0, 10), (30000, 40), (61000, 90)]).data_points
      = [(61000, 90), (30000, 40)] :=
  ⟨⟨by decide, by decide⟩,
   window_invariant 0 [(0, 10), (30000, 40), (61000, 90)] (by decide) (by decide),
   by decide⟩

/-- C3: a push never evicts the sample it inserts: after any push the
series is non-empty and the just-pushed sample is at the front; a series
receiving its first push holds exactly that one sample. -/
theorem push_never_evicts_itself :
    ∀ (c : PercentualUsageChart) (t v : Int) (col : Nat),
      (c.push_data t v).data_points ≠ []
      ∧ (c.push_data t v).data_points.head? = some (t, v)
      ∧ ((PercentualUsageChart.new [] col).push_data t v).data_points
          = [(t, v)] := by
  intro c t v col
  refine ⟨?_, push_data_head c t v, ?_⟩
  · obtain ⟨l', hl', -⟩ := push_data_shape c t v
    simp [hl']
  · obtain ⟨l', hl', hs⟩ := push_data_shape (PercentualUsageChart.new [] col) t v
    have : l' = [] :=
      List.sublist_nil.mp (by simpa [PercentualUsageChart.new] using hs)
    simpa [this] using hl'

/-- C9 counterexample: push_data called with timestamp 15 s on a series
holding samples at 10 s, 20 s, 30 s (all within the 60 s window) evicts
nothing: the eviction loop stops at the oldest entry (10 s, which is older
than the pushed timestamp), so the samples at 20 s and 30 s — later than
the pushed timestamp — are retained, contradicting the claim that every
such sample is evicted. -/
theorem wraparound_eviction_counterexample :
    ((((PercentualUsageChart.new [] 0).push_data 10000 1).push_data 20000 2
        |>.push_data 30000 3 |>.push_data 15000 9).data_points
      = [(15000, 9), (30000, 3), (20000, 2), (10000, 1)])
    ∧ (15000 : Int) < 20000
    ∧ ((20000, 2) ∈ (((PercentualUsageChart.new [] 0).push_data 10000 1
        |>.push_data 20000 2 |>.push_data 30000 3
        |>.push_data 15000 9).data_points)) := by decide

/-- C9 amended: eviction inspects only the oldest (back) entry, so a
non-monotonic push evicts later-than-pushed samples only while they occupy
the back.  When the pushed timestamp is strictly earlier than every
retained sample (each by less than 2^64 − 60000 ms, so the wrapped u64
difference exceeds the window), the wraparound evicts all of them and only
the pushed sample remains. -/
theorem wraparound_eviction (c : PercentualUsageChart) (t v : Int)
    (hlim : c.limit = limitMillis)
    (hgt : ∀ x ∈ c.data_points, t < x.1 ∧ x.1 - t < 2 ^ 64 - (limitMillis : Int)) :
    (c.push_data t v).data_points = [(t, v)] := by
  rw [push_data_eq]
  have hall : ∀ x ∈ c.data_points.reverse, castU64 (t - x.1) > c.limit := by
    intro x hx
    obtain ⟨h1, h2⟩ := hgt x (List.mem_reverse.mp hx)
    have hcast : (castU64 (t - x.1) : Int) = t - x.1 + 2 ^ 64 :=
      castU64_of_neg (by omega) (by omega)
    have hlim60 : (limitMillis : Int) = 60000 := by
      norm_num [limitMillis, PLOT_SECONDS]
    have : (c.limit : Int) < (castU64 (t - x.1) : Int) := by
      rw [hcast, hlim]
      omega
    exact_mod_cast this
  rw [evictLoop_all (self_not_evicted t c.limit) c.data_points.reverse hall]
  simp

/-- Witness for the amended C9: pushing t = 10 s into a series holding
samples at 20 s and 30 s evicts both, leaving only the pushed sample. -/
theorem wraparound_eviction_witness :
    (((PercentualUsageChart.new [] 0).push_data 20000 2
        |>.push_data 30000 3).limit = limitMillis
      ∧ ∀ x ∈ (((PercentualUsageChart.new [] 0).push_data 20000 2
          |>.push_data 30000 3).data_points),
          (10000 : Int) < x.1 ∧ x.1 - 10000 < 2 ^ 64 - (limitMillis : Int))
    ∧ (((PercentualUsageChart.new [] 0).push_data 20000 2
        |>.push_data 30000 3).push_data 10000 5).data_points = [(10000, 5)] :=
  ⟨⟨by decide, by decide⟩,
   wraparound_eviction _ 10000 5 (by decide) (by decide)⟩

/-- C1 counterexample: an update on a fresh controller with a raw CPU
reading of 137 stores 137 in the CPU series — outside [0, 100] and not
clamped to 100: out-of-range data is propagated. -/
theorem clamping_counterexample :
    (((SystemChart.new 0 0).update 0 0 137 0 0).cpu.map
        (fun c => c.data_points)) = some [((0 : Int), (137 : Int))]
    ∧ ¬ ((137 : Int) ≤ 100) := by decide

/-- C1 amended: the sampling update performs no clamping: it stores the
integer-cast CPU reading unchanged — the fresh-controller update seeds the
series with exactly the raw reading, and every push places exactly the
pushed value at the front. -/
theorem raw_reading_stored_unclamped :
    ∀ (i col ni : Nat) (now cd : Int) (u t : Nat),
      ((SystemChart.new i col).update ni now cd u t).cpu
        = some (PercentualUsageChart.new [(now, cd)] col)
      ∧ ∀ (c : PercentualUsageChart) (t' v : Int),
          (c.push_data t' v).data_points.head? = some (t', v) := by
  intro i col ni now cd u t
  constructor
  · simp [SystemChart.update, SystemChart.updateR, SystemChart.new,
      SystemChart.should_update, SystemChart.is_initialized]
  · intro c t' v
    exact push_data_head c t' v

/-- C5 counterexample: the f64 computation is not exact floor division:
for used = 29, total = 50 the update stores 57 while
floor(used / total · 100) = 58 (the double nearest 0.58 is slightly below
it, and ·100.0 then truncation loses the unit). -/
theorem memory_floor_counterexample :
    ((SystemChart.new 0 0).update 0 0 0 29 50).memory
      = some (PercentualUsageChart.new [(0, 57)] 0)
    ∧ (100 * 29) / 50 = 58
    ∧ (57 : Int) ≠ 58 := by decide

/-- C5 amended: the stored memory percentage is the IEEE-754 double
computation `((used as f64 / total as f64) * 100.0) as i32`
(`memoryPercent`), truncation toward zero included; it equals
floor(used/total · 100) on the spec's scenario used = 4096, total = 8192
(giving 50) but not universally (used = 29, total = 50 stores 57, one below
the exact floor 58). -/
theorem memory_percent_f64 :
    ∀ (i col ni : Nat) (now cd : Int) (u t : Nat),
      ((SystemChart.new i col).update ni now cd u t).memory
        = some (PercentualUsageChart.new [(now, memoryPercent u t)] col)
      ∧ memoryPercent 4096 8192 = 50
      ∧ memoryPercent 29 50 = 57 := by
  intro i col ni now cd u t
  refine ⟨?_, by decide, by decide⟩
  simp [SystemChart.update, SystemChart.updateR, SystemChart.new,
    SystemChart.should_update, SystemChart.is_initialized]

/-- C6: the render cache is valid exactly between a rebuild and the next
insert: every push clears the cached frame; a draw caches the frame it
returns, so a second draw with no intervening push returns the identical
geometry; and a draw following a push returns the frame freshly built from
the new data. -/
theorem cache_validity (c : PercentualUsageChart) (t v : Int) :
    (c.push_data t v).cache.geometry = none
    ∧ (∀ (g : Geometry) (c' : PercentualUsageChart), c.draw = .ok (g, c') →
        c'.cache.geometry = some g ∧ c'.draw = .ok (g, c'))
    ∧ (∀ (g : Geometry) (c' : PercentualUsageChart),
        (c.push_data t v).draw = .ok (g, c') →
        (c.push_data t v).build_chart = .ok g) := by
  refine ⟨rfl, ?_, ?_⟩
  · intro g c' h
    unfold PercentualUsageChart.draw at h
    cases hc : c.cache.geometry with
    | some g₀ =>
      rw [hc] at h
      injection h with h'
      injection h' with h1 h2
      subst h1; subst h2
      constructor
      · exact hc
      · unfold PercentualUsageChart.draw
        rw [hc]
    | none =>
      rw [hc] at h
      cases hb : c.build_chart with
      | ok g₁ =>
        rw [hb] at h
        injection h with h'
        injection h' with h1 h2
        subst h1; subst h2
        refine ⟨rfl, ?_⟩
        unfold PercentualUsageChart.draw
        rfl
      | error e =>
        rw [hb] at h
        cases h
  · intro g c' h
    unfold PercentualUsageChart.draw at h
    have hc : (c.push_data t v).cache.geometry = none := rfl
    rw [hc] at h
    cases hb : (c.push_data t v).build_chart with
    | ok g₁ =>
      rw [hb] at h
      injection h with h'
      injection h' with h1 h2
      subst h1
      rfl
    | error e =>
      rw [hb] at h
      cases h

/-- Placeholder frame of an empty series: epoch domain, no points. -/
def emptyGeom : Geometry :=
  { xLo := -60000, xHi := 0, yLo := 0, yHi := 100, points := [] }

/-- Frame of a series holding the single sample (0 ms, 5). -/
def oneGeom : Geometry :=
  { xLo := -60000, xHi := 0, yLo := 0, yHi := 100, points := [(0, 5)] }

/-- An empty series whose cache holds its rebuilt placeholder frame. -/
def cachedEmpty : PercentualUsageChart :=
  { cache := ⟨some emptyGeom⟩, data_points := [], limit := limitMillis,
    color := 0 }

/-- Witness for C6 at a concrete series: push invalidates, a rebuilt draw
is cached and repeats identically, and a post-push draw shows the new
point. -/
theorem cache_validity_witness :
    ((PercentualUsageChart.new [] 0).push_data 0 5).cache.geometry = none
    ∧ cachedEmpty.cache.geometry = some emptyGeom
    ∧ cachedEmpty.draw = .ok (emptyGeom, cachedEmpty)
    ∧ ((PercentualUsageChart.new [] 0).push_data 0 5).build_chart
        = .ok oneGeom := by
  refine ⟨(cache_validity (PercentualUsageChart.new [] 0) 0 5).1, ?_⟩
  have h2 := (cache_validity (PercentualUsageChart.new [] 0) 0 5).2.1
    emptyGeom cachedEmpty rfl
  have h3 := (cache_validity (PercentualUsageChart.new [] 0) 0 5).2.2
    oneGeom { cache := ⟨some oneGeom⟩, data_points := [(0, 5)],
              limit := limitMillis, color := 0 } rfl
  exact ⟨h2.1, h2.2, h3⟩

/-- C7: a rebuild computes the visible time domain
[newest − 60 s, newest] and the fixed value domain [0, 100] over all
retained points; `newest` is the front sample's timestamp — the maximal
retained timestamp under the series' newest-first ordering — or the epoch
placeholder 0 for an empty series. -/
theorem build_chart_domains (c : PercentualUsageChart) :
    c.build_chart = .ok
      { xLo := c.newestTime - (PLOT_SECONDS : Int) * 1000,
        xHi := c.newestTime, yLo := 0, yHi := 100, points := c.data_points }
    ∧ (c.data_points = [] → c.newestTime = 0)
    ∧ (c.data_points.Pairwise (fun a b => b.1 < a.1) →
        ∀ x ∈ c.data_points, x.1 ≤ c.newestTime) := by
  refine ⟨?_, ?_, ?_⟩
  · unfold PercentualUsageChart.build_chart
    rw [if_pos (by norm_num [PLOT_SECONDS])]
  · intro h
    simp [PercentualUsageChart.newestTime, h]
  · intro hsorted x hx
    cases hdp : c.data_points with
    | nil => rw [hdp] at hx; cases hx
    | cons a l =>
      have hnt : c.newestTime = a.1 := by
        simp [PercentualUsageChart.newestTime, hdp]
      rw [hdp] at hx hsorted
      rw [hnt]
      rcases List.mem_cons.mp hx with rfl | hxl
      · exact le_refl _
      · exact le_of_lt ((List.pairwise_cons.mp hsorted).1 x hxl)

/-- Frame of the sorted two-sample series used in the C7 witness. -/
def twoGeom : Geometry :=
  { xLo := 1000, xHi := 61000, yLo := 0, yHi := 100,
    points := [(61000, 90), (30000, 40)] }

/-- Witness for C7 on a sorted two-sample series and on the empty series. -/
theorem build_chart_domains_witness :
    (PercentualUsageChart.new [(61000, 90), (30000, 40)] 0).build_chart
      = .ok twoGeom
    ∧ (PercentualUsageChart.new [] 0).newestTime = 0
    ∧ ∀ x ∈ ([((61000 : Int), (90 : Int)), (30000, 40)] : List (Int × Int)),
        x.1 ≤ (PercentualUsageChart.new [(61000, 90), (30000, 40)] 0).newestTime := by
  refine ⟨?_, ?_, ?_⟩
  · have h := (build_chart_domains
      (PercentualUsageChart.new [(61000, 90), (30000, 40)] 0)).1
    exact h
  · exact (build_chart_domains (PercentualUsageChart.new [] 0)).2.1 rfl
  · exact (build_chart_domains
      (PercentualUsageChart.new [(61000, 90), (30000, 40)] 0)).2.2 (by decide)

/-- C8: drawing an empty series never fails: chart construction succeeds
with the non-degenerate epoch placeholder domain [−60 s, 0] × [0, 100] and
zero data points, and the draw returns that frame. -/
theorem empty_series_render (col : Nat) :
    (PercentualUsageChart.new [] col).build_chart = .ok emptyGeom
    ∧ emptyGeom.xLo < emptyGeom.xHi
    ∧ emptyGeom.points = []
    ∧ (PercentualUsageChart.new [] col).draw
      = .ok (emptyGeom,
          { cache := ⟨some emptyGeom⟩, data_points := [], limit := limitMillis,
            color := col }) := by
  refine ⟨rfl, by norm_num [emptyGeom], rfl, rfl⟩

/-! Facts about the sampling gate of `SystemChart::update`. -/

lemma should_update_iff (st : SystemChart) (ni : Nat) :
    st.should_update ni = true
      ↔ (st.is_initialized = false ∨ SAMPLE_EVERY < ni - st.last_sample_time) := by
  simp [SystemChart.should_update, Bool.or_eq_true, Bool.not_eq_true',
    decide_eq_true_eq]

lemma updateR_not_sampled (st : SystemChart) (ni : Nat) (now cd : Int)
    (u t : Nat) (hs : st.should_update ni = false) :
    st.updateR ni now cd u t = (st, false) := by
  unfold SystemChart.updateR
  rw [if_neg (by simp [hs])]

lemma updateR_sampled_fields (st : SystemChart) (ni : Nat) (now cd : Int)
    (u t : Nat) (hs : st.should_update ni = true) :
    (st.updateR ni now cd u t).2 = true
    ∧ (st.updateR ni now cd u t).1.last_sample_time = ni
    ∧ (st.updateR ni now cd u t).1.is_initialized = true := by
  unfold SystemChart.updateR
  rw [if_pos hs]
  by_cases hinit : st.is_initialized = true
  · have : ({ st with last_sample_time := ni } : SystemChart).is_initialized
        = true := hinit
    rw [if_neg (by simp [this])]
    refine ⟨rfl, rfl, ?_⟩
    simp only [SystemChart.is_initialized] at hinit ⊢
    simp [Option.isSome_map, hinit]
  · have : ({ st with last_sample_time := ni } : SystemChart).is_initialized
        = false := by
      simpa [SystemChart.is_initialized] using hinit
    rw [if_pos (by simp [this])]
    exact ⟨rfl, rfl, by simp [SystemChart.is_initialized]⟩

lemma updateR_sampled_cpu (st : SystemChart) (ni : Nat) (now cd : Int)
    (u t : Nat) (hs : st.should_update ni = true) :
    ∃ c, (st.updateR ni now cd u t).1.cpu = some c
      ∧ c.data_points.head? = some (now, cd) := by
  unfold SystemChart.updateR
  rw [if_pos hs]
  by_cases hinit : st.is_initialized = true
  · have h1 : ({ st with last_sample_time := ni } : SystemChart).is_initialized
        = true := hinit
    rw [if_neg (by simp [h1])]
    simp only [SystemChart.is_initialized, Option.isSome_iff_exists] at hinit
    obtain ⟨c₀, hc₀⟩ := hinit
    exact ⟨c₀.push_data now cd, by simp [hc₀], push_data_head c₀ now cd⟩
  · have h1 : ({ st with last_sample_time := ni } : SystemChart).is_initialized
        = false := by
      simpa [SystemChart.is_initialized] using hinit
    rw [if_pos (by simp [h1])]
    exact ⟨PercentualUsageChart.new [(now, cd)] st.color, rfl, rfl⟩

/-- C4: the sampling update refreshes and pushes if and only if the
controller is uninitialized (has never sampled) or more than 1000 ms of
monotonic time have passed since the last sample; otherwise it returns the
state unchanged; and after a sampling update, any further update within the
same 1000 ms interval is a no-op (no refresh, no push, state unchanged). -/
theorem sampling_gate (st : SystemChart) (ni : Nat) (now cd : Int)
    (u t : Nat) :
    ((st.updateR ni now cd u t).2 = true
      ↔ (st.is_initialized = false ∨ SAMPLE_EVERY < ni - st.last_sample_time))
    ∧ ((st.updateR ni now cd u t).2 = false → (st.updateR ni now cd u t).1 = st)
    ∧ ((st.updateR ni now cd u t).2 = true →
        ∃ c, (st.updateR ni now cd u t).1.cpu = some c
          ∧ c.data_points.head? = some (now, cd))
    ∧ ((st.updateR ni now cd u t).2 = true →
        ∀ (ni₂ : Nat) (now₂ cd₂ : Int) (u₂ t₂ : Nat),
          ni₂ - ni ≤ SAMPLE_EVERY →
          (st.updateR ni now cd u t).1.updateR ni₂ now₂ cd₂ u₂ t₂
            = ((st.updateR ni now cd u t).1, false)) := by
  by_cases hs : st.should_update ni = true
  · obtain ⟨hflag, hlast, hinit⟩ := updateR_sampled_fields st ni now cd u t hs
    refine ⟨?_, ?_, ?_, ?_⟩
    · rw [hflag]
      simp only [true_iff]
      exact (should_update_iff st ni).mp hs
    · intro hfalse
      rw [hflag] at hfalse
      cases hfalse
    · intro _
      exact updateR_sampled_cpu st ni now cd u t hs
    · intro _ ni₂ now₂ cd₂ u₂ t₂ hni₂
      apply updateR_not_sampled
      rw [Bool.eq_false_iff]
      intro habs
      rcases (should_update_iff _ ni₂).mp habs with h | h
      · rw [hinit] at h; cases h
      · rw [hlast] at h
        omega
  · rw [Bool.not_eq_true] at hs
    rw [updateR_not_sampled st ni now cd u t hs]
    refine ⟨?_, fun _ => rfl, ?_, ?_⟩
    · constructor
      · intro habs
        exact Bool.noConfusion habs
      · intro habs
        rw [← should_update_iff st ni, hs] at habs
        exact Bool.noConfusion habs
    · intro habs
      exact absurd habs (by simp)
    · intro habs
      exact absurd habs (by simp)

/-- Witness for C4 on a fresh controller (which always samples) followed by
a second call 500 ms later (a no-op). -/
theorem sampling_gate_witness :
    (((SystemChart.new 0 0).updateR 0 0 7 0 0).2 = true
      ↔ ((SystemChart.new 0 0).is_initialized = false
          ∨ SAMPLE_EVERY < 0 - (SystemChart.new 0 0).last_sample_time))
    ∧ (∃ c, ((SystemChart.new 0 0).updateR 0 0 7 0 0).1.cpu = some c
        ∧ c.data_points.head? = some (0, 7))
    ∧ ((SystemChart.new 0 0).updateR 0 0 7 0 0).1.updateR 500 500 9 0 0
        = (((SystemChart.new 0 0).updateR 0 0 7 0 0).1, false) :=
  ⟨(sampling_gate (SystemChart.new 0 0) 0 0 7 0 0).1,
   (sampling_gate (SystemChart.new 0 0) 0 0 7 0 0).2.2.1 (by decide),
   (sampling_gate (SystemChart.new 0 0) 0 0 7 0 0).2.2.2 (by decide)
     500 500 9 0 0 (by decide)⟩

/-! The CPU/Memory pairing invariant. -/

lemma updateR_paired (st : SystemChart) (ni : Nat) (now cd : Int) (u t : Nat)
    (hpair : st.cpu.isSome = st.memory.isSome) :
    (st.updateR ni now cd u t).1.cpu.isSome
      = (st.updateR ni now cd u t).1.memory.isSome := by
  unfold SystemChart.updateR
  by_cases hs : st.should_update ni = true
  · rw [if_pos hs]
    by_cases hinit : ({ st with last_sample_time := ni } : SystemChart).is_initialized = true
    · rw [if_neg (by simp [hinit])]
      simpa [Option.isSome_map] using hpair
    · rw [if_pos (by simp [Bool.not_eq_true] at hinit; simp [hinit])]
      rfl
  · rw [if_neg (by simp [Bool.not_eq_true] at hs; simp [hs])]
    exact hpair

lemma reachable_paired {st : SystemChart} (h : Reachable st) :
    st.cpu.isSome = st.memory.isSome := by
  induction h with
  | new now_inst color => rfl
  | step h ni now cd u t ih => exact updateR_paired _ ni now cd u t ih

/-- C10: in every reachable controller state the CPU series exists if and
only if the Memory series exists, and every sampling update pushes into
both series one sample each carrying the same wall-clock timestamp `now`
(the CPU sample holds the raw reading, the memory sample the computed
percentage). -/
theorem series_paired (st : SystemChart) (h : Reachable st) :
    (st.cpu.isSome ↔ st.memory.isSome)
    ∧ ∀ (ni : Nat) (now cd : Int) (u t : Nat),
        (st.updateR ni now cd u t).2 = true →
        ∃ c m, (st.updateR ni now cd u t).1.cpu = some c
          ∧ (st.updateR ni now cd u t).1.memory = some m
          ∧ c.data_points.head? = some (now, cd)
          ∧ m.data_points.head? = some (now, memoryPercent u t) := by
  have hpair := reachable_paired h
  constructor
  · rw [hpair]
  · intro ni now cd u t hflag
    have hs : st.should_update ni = true := by
      by_contra habs
      rw [Bool.not_eq_true] at habs
      rw [updateR_not_sampled st ni now cd u t habs] at hflag
      cases hflag
    unfold SystemChart.updateR at *
    rw [if_pos hs] at *
    by_cases hinit : st.is_initialized = true
    · have h1 : ({ st with last_sample_time := ni } : SystemChart).is_initialized
          = true := hinit
      rw [if_neg (by simp [h1])] at *
      simp only [SystemChart.is_initialized, Option.isSome_iff_exists] at hinit
      obtain ⟨c₀, hc₀⟩ := hinit
      have hm : st.memory.isSome = true := by
        rw [← hpair, hc₀]; rfl
      rw [Option.isSome_iff_exists] at hm
      obtain ⟨m₀, hm₀⟩ := hm
      exact ⟨c₀.push_data now cd, m₀.push_data now (memoryPercent u t),
        by simp [hc₀], by simp [hm₀],
        push_data_head c₀ now cd, push_data_head m₀ now (memoryPercent u t)⟩
    · have h1 : ({ st with last_sample_time := ni } : SystemChart).is_initialized
          = false := by
        simpa [SystemChart.is_initialized] using hinit
      rw [if_pos (by simp [h1])] at *
      exact ⟨PercentualUsageChart.new [(now, cd)] st.color,
        PercentualUsageChart.new [(now, memoryPercent u t)] st.color,
        rfl, rfl, rfl, rfl⟩

/-- Witness for C10: the fresh controller is reachable and its first update
(which always samples) seeds both series with the same timestamp. -/
theorem series_paired_witness :
    ((SystemChart.new 0 0).cpu.isSome ↔ (SystemChart.new 0 0).memory.isSome)
    ∧ ∃ c m, ((SystemChart.new 0 0).updateR 1 5 7 0 0).1.cpu = some c
        ∧ ((SystemChart.new 0 0).updateR 1 5 7 0 0).1.memory = some m
        ∧ c.data_points.head? = some (5, 7)
        ∧ m.data_points.head? = some (5, memoryPercent 0 0) :=
  ⟨(series_paired (SystemChart.new 0 0) (Reachable.new 0 0)).1,
   (series_paired (SystemChart.new 0 0) (Reachable.new 0 0)).2
     1 5 7 0 0 (by decide)⟩

/-- Witness for the amended C1: raw reading 137 is stored as 137. -/
theorem raw_reading_stored_unclamped_witness :
    ((SystemChart.new 0 0).update 0 5 137 0 0).cpu
      = some (PercentualUsageChart.new [(5, 137)] 0)
    ∧ ((PercentualUsageChart.new [] 0).push_data 3 4).data_points.head?
      = some (3, 4) :=
  ⟨(raw_reading_stored_unclamped 0 0 0 5 137 0 0).1,
   (raw_reading_stored_unclamped 0 0 0 5 137 0 0).2
     (PercentualUsageChart.new [] 0) 3 4⟩

/-- Witness for C3 at concrete pushes. -/
theorem push_never_evicts_itself_witness :
    ((PercentualUsageChart.new [(0, 1)] 0).push_data 42 9).data_points ≠ []
    ∧ ((PercentualUsageChart.new [(0, 1)] 0).push_data 42 9).data_points.head?
        = some (42, 9)
    ∧ ((PercentualUsageChart.new [] 0).push_data 42 9).data_points
        = [(42, 9)] :=
  push_never_evicts_itself (PercentualUsageChart.new [(0, 1)] 0) 42 9 0

/-- Witness for the amended C5 at the counterexample input. -/
theorem memory_percent_f64_witness :
    ((SystemChart.new 0 0).update 0 0 0 29 50).memory
      = some (PercentualUsageChart.new [(0, memoryPercent 29 50)] 0)
    ∧ memoryPercent 4096 8192 = 50
    ∧ memoryPercent 29 50 = 57 :=
  ⟨(memory_percent_f64 0 0 0 0 0 29 50).1,
   (memory_percent_f64 0 0 0 0 0 29 50).2.1,
   (memory_percent_f64 0 0 0 0 0 29 50).2.2⟩

/-- Witness for C8 at a concrete color. -/
theorem empty_series_render_witness :
    (PercentualUsageChart.new [] 0).build_chart = .ok emptyGeom
    ∧ emptyGeom.xLo < emptyGeom.xHi
    ∧ emptyGeom.points = []
    ∧ (PercentualUsageChart.new [] 0).draw
      = .ok (emptyGeom,
          { cache := ⟨some emptyGeom⟩, data_points := [], limit := limitMillis,
            color := 0 }) :=
  empty_series_render 0

end SysStatus
